import Mathlib

/-!
Verification development for the urban-mobility-explorer repository.

The two algorithmic modules are embedded shallowly:

* `ImportData` models src/scripts/importData.js: the haversine distance
  `calculateDistance`, borough geofencing `getBorough`, coordinate and trip
  validation (`isValidCoordinate`, `isValidTrip`) and the trip-type fragment
  of `enrichTripData`.
* `TripClusterer` models the clustering class of the server file
  (src/unnamed/part_000): the feature-space `calculateDistance`, centroid
  initialisation, the k-means loop `kMeans`.

Modelling conventions, used throughout:

* A JavaScript number is a `JSNumber`: an exact rational, `nan`, `posInf`
  or `negInf`.  Rationals stand in for IEEE doubles; float rounding and
  negative zero are not modelled (no claim under scrutiny depends on them),
  but the NaN/Infinity propagation rules of JS arithmetic and comparison
  are modelled faithfully, operation by operation.
* The transcendental functions of the JS Math library (sin, cos, atan2,
  sqrt) have no exact rational counterpart; they are abstracted as a
  `JsMath` record of unspecified rational functions threaded through the
  embedding.  Guards the library itself imposes are kept concrete:
  sqrt of a negative number is NaN, sin/cos/atan2 of a non-finite number
  is NaN.  (Math.atan2 on infinite arguments actually returns fixed
  multiples of pi/4; those values are irrational and the embedded program
  never reaches atan2 with an infinite argument, so the lifted atan2
  maps them to NaN.)
* `parseFloat`/`parseInt` results are taken as the field values: a record
  or point field of type `JSNumber` is the number the JS code obtains
  after parsing, with `nan` standing for a missing or unparseable field.
  `parseFloat` applied to an already-numeric value is the identity and is
  not re-modelled.
* `Math.random()`-driven index choices are modelled by an arbitrary stream
  `g : Nat -> Nat` of naturals, read at an incrementing counter and reduced
  mod the array length; every sequence of in-range indices is realisable,
  which is the nondeterminism the proofs quantify over.
* The rejection-sampling do-while loop in centroid initialisation need not
  terminate, so it is given explicit fuel and an `Option` result; `none`
  models divergence (the JS function has no other failure mode).
-/

inductive JSNumber where
  | finite (q : ℚ)
  | nan
  | posInf
  | negInf
deriving DecidableEq, Repr

/-- Finiteness test on an embedded JS number (Number.isFinite). -/
def JSNumber.isFinite : JSNumber → Bool
  | .finite _ => true
  | _ => false

/-- JS addition on numbers: NaN absorbs, Infinity - Infinity style sums give NaN. -/
def addJ : JSNumber → JSNumber → JSNumber
  | .nan, _ => .nan
  | _, .nan => .nan
  | .finite a, .finite b => .finite (a + b)
  | .posInf, .negInf => .nan
  | .negInf, .posInf => .nan
  | .posInf, _ => .posInf
  | _, .posInf => .posInf
  | .negInf, _ => .negInf
  | _, .negInf => .negInf

/-- JS subtraction on numbers. -/
def subJ : JSNumber → JSNumber → JSNumber
  | .nan, _ => .nan
  | _, .nan => .nan
  | .finite a, .finite b => .finite (a - b)
  | .posInf, .posInf => .nan
  | .negInf, .negInf => .nan
  | .posInf, _ => .posInf
  | .negInf, _ => .negInf
  | _, .posInf => .negInf
  | _, .negInf => .posInf

/-- JS multiplication on numbers: zero times an infinity is NaN. -/
def mulJ : JSNumber → JSNumber → JSNumber
  | .nan, _ => .nan
  | _, .nan => .nan
  | .finite a, .finite b => .finite (a * b)
  | .posInf, .posInf => .posInf
  | .posInf, .negInf => .negInf
  | .negInf, .posInf => .negInf
  | .negInf, .negInf => .posInf
  | .posInf, .finite b => if b = 0 then .nan else if 0 < b then .posInf else .negInf
  | .finite a, .posInf => if a = 0 then .nan else if 0 < a then .posInf else .negInf
  | .negInf, .finite b => if b = 0 then .nan else if 0 < b then .negInf else .posInf
  | .finite a, .negInf => if a = 0 then .nan else if 0 < a then .negInf else .posInf

/-- JS division on numbers (negative zero is not modelled: a finite value
divided by an infinity is plain zero, division of a nonzero value by zero
picks the sign of the numerator). -/
def divJ : JSNumber → JSNumber → JSNumber
  | .nan, _ => .nan
  | _, .nan => .nan
  | .finite a, .finite b =>
      if b = 0 then (if a = 0 then .nan else if 0 < a then .posInf else .negInf)
      else .finite (a / b)
  | .posInf, .posInf => .nan
  | .posInf, .negInf => .nan
  | .negInf, .posInf => .nan
  | .negInf, .negInf => .nan
  | .posInf, .finite b => if 0 ≤ b then .posInf else .negInf
  | .negInf, .finite b => if 0 ≤ b then .negInf else .posInf
  | .finite _, .posInf => .finite 0
  | .finite _, .negInf => .finite 0

/-- JS strict comparison a < b: false whenever either side is NaN. -/
def ltJ : JSNumber → JSNumber → Bool
  | .nan, _ => false
  | _, .nan => false
  | .finite a, .finite b => decide (a < b)
  | .posInf, _ => false
  | .negInf, .negInf => false
  | .negInf, _ => true
  | .finite _, .posInf => true
  | .finite _, .negInf => false

/-- JS comparison a <= b: false whenever either side is NaN. -/
def leJ : JSNumber → JSNumber → Bool
  | .nan, _ => false
  | _, .nan => false
  | .finite a, .finite b => decide (a ≤ b)
  | .negInf, _ => true
  | _, .posInf => true
  | .posInf, _ => false
  | .finite _, .negInf => false

/-- JS comparison a >= b, which agrees with b <= a (NaN on either side is false). -/
def geJ (a b : JSNumber) : Bool := leJ b a

/-- JS comparison a > b, which agrees with b < a (NaN on either side is false). -/
def gtJ (a b : JSNumber) : Bool := ltJ b a

/-- JS strict equality on numbers: NaN equals nothing, not even itself. -/
def beqJ : JSNumber → JSNumber → Bool
  | .finite a, .finite b => decide (a = b)
  | .posInf, .posInf => true
  | .negInf, .negInf => true
  | _, _ => false

/-- Math.min of two numbers: NaN poisons, otherwise the smaller argument. -/
def jsMin (a b : JSNumber) : JSNumber :=
  if a = .nan ∨ b = .nan then .nan
  else if ltJ b a then b else a

/-- Math.min spread over a list, as in Math.min(...distances): the fold
starts from Infinity, which is what Math.min() returns on no arguments. -/
def jsMinList (ds : List JSNumber) : JSNumber := ds.foldl jsMin .posInf

/-- Array.prototype.indexOf on a list of numbers: the first index whose
element is strictly equal to the key, or -1.  Since strict equality never
holds for NaN, searching for NaN yields -1. -/
def jsIndexOf : List JSNumber → JSNumber → Int
  | [], _ => -1
  | a :: rest, x =>
      if beqJ a x then 0
      else
        let r := jsIndexOf rest x
        if r < 0 then -1 else r + 1

/-- Abstraction of the transcendental part of the JS Math library as
unspecified functions on the rational carrier.  The embedding never relies
on their values, only on the NaN/Infinity plumbing around them. -/
structure JsMath where
  sin : ℚ → ℚ
  cos : ℚ → ℚ
  atan2 : ℚ → ℚ → ℚ
  sqrt : ℚ → ℚ

/-- Math.sin lifted to JS numbers: NaN on any non-finite argument. -/
def sinJ (σ : JsMath) : JSNumber → JSNumber
  | .finite q => .finite (σ.sin q)
  | _ => .nan

/-- Math.cos lifted to JS numbers: NaN on any non-finite argument. -/
def cosJ (σ : JsMath) : JSNumber → JSNumber
  | .finite q => .finite (σ.cos q)
  | _ => .nan

/-- Math.sqrt lifted to JS numbers: NaN on a negative or NaN argument,
Infinity on Infinity. -/
def sqrtJ (σ : JsMath) : JSNumber → JSNumber
  | .finite q => if q < 0 then .nan else .finite (σ.sqrt q)
  | .posInf => .posInf
  | _ => .nan

/-- Math.atan2 lifted to JS numbers (see the header note: the infinite
cases, unreachable in this program, are mapped to NaN). -/
def atan2J (σ : JsMath) : JSNumber → JSNumber → JSNumber
  | .finite y, .finite x => .finite (σ.atan2 y x)
  | _, _ => .nan

/-- Math.PI as the decimal literal printed in double precision. -/
def jsPI : ℚ := 3.141592653589793

namespace ImportData

/-- A rectangular bounding box, as the NYC_BOUNDS and borough constants of
importData.js. -/
structure Bounds where
  minLat : ℚ
  maxLat : ℚ
  minLon : ℚ
  maxLon : ℚ
deriving DecidableEq, Repr

/-- NYC bounds for coordinate validation (importData.js). -/
def NYC_BOUNDS : Bounds := ⟨40.4774, 40.9176, -74.2591, -73.7004⟩

/-- The borough table of importData.js, in its insertion order, which is the
iteration order of Object.entries. -/
def BOROUGHS : List (String × Bounds) :=
  [("Manhattan", ⟨40.7000, 40.8000, -74.0500, -73.9000⟩),
   ("Brooklyn", ⟨40.5700, 40.7400, -74.0500, -73.8000⟩),
   ("Queens", ⟨40.5400, 40.8000, -74.0000, -73.7000⟩),
   ("Bronx", ⟨40.7800, 40.9200, -73.9500, -73.7500⟩),
   ("Staten Island", ⟨40.5000, 40.6500, -74.3000, -74.0000⟩)]

/-- calculateDistance of importData.js: the haversine formula on a sphere of
radius 6371 km, translated expression for expression.  The source performs
no finiteness check and contains no throw: the embedding is a total
function into JSNumber. -/
def calculateDistance (σ : JsMath) (lat1 lon1 lat2 lon2 : JSNumber) : JSNumber :=
  let R : JSNumber := .finite 6371
  let dLat := divJ (mulJ (subJ lat2 lat1) (.finite jsPI)) (.finite 180)
  let dLon := divJ (mulJ (subJ lon2 lon1) (.finite jsPI)) (.finite 180)
  let a :=
    addJ
      (mulJ (sinJ σ (divJ dLat (.finite 2))) (sinJ σ (divJ dLat (.finite 2))))
      (mulJ
        (mulJ
          (mulJ (cosJ σ (divJ (mulJ lat1 (.finite jsPI)) (.finite 180)))
                (cosJ σ (divJ (mulJ lat2 (.finite jsPI)) (.finite 180))))
          (sinJ σ (divJ dLon (.finite 2))))
        (sinJ σ (divJ dLon (.finite 2))))
  let c := mulJ (.finite 2) (atan2J σ (sqrtJ σ a) (sqrtJ σ (subJ (.finite 1) a)))
  mulJ R c

/-- The containment test of the getBorough loop body, with all four edges
inclusive (JS >= and <= comparisons). -/
def inBounds (b : Bounds) (lat lon : JSNumber) : Bool :=
  geJ lat (.finite b.minLat) && leJ lat (.finite b.maxLat) &&
  geJ lon (.finite b.minLon) && leJ lon (.finite b.maxLon)

/-- The for-of loop of getBorough over an entry list: first matching
rectangle wins, no match gives "Unknown". -/
def getBoroughAux : List (String × Bounds) → JSNumber → JSNumber → String
  | [], _, _ => "Unknown"
  | e :: rest, lat, lon => if inBounds e.2 lat lon then e.1 else getBoroughAux rest lat lon

/-- getBorough of importData.js. -/
def getBorough (lat lon : JSNumber) : String := getBoroughAux BOROUGHS lat lon

/-- isValidCoordinate of importData.js, with its bounding rectangle made a
parameter (the source reads the module constant NYC_BOUNDS). -/
def isValidCoordinateIn (b : Bounds) (lat lon : JSNumber) : Bool :=
  !beqJ lat (.finite 0) && !beqJ lon (.finite 0) &&
  geJ lat (.finite b.minLat) && leJ lat (.finite b.maxLat) &&
  geJ lon (.finite b.minLon) && leJ lon (.finite b.maxLon)

/-- isValidCoordinate of importData.js against the configured NYC bounds. -/
def isValidCoordinate (lat lon : JSNumber) : Bool := isValidCoordinateIn NYC_BOUNDS lat lon

/-- The numeric fields of a CSV trip record after the parseFloat/parseInt
calls at the head of isValidTrip and enrichTripData. -/
structure TripRecord where
  pickup_latitude : JSNumber
  pickup_longitude : JSNumber
  dropoff_latitude : JSNumber
  dropoff_longitude : JSNumber
  trip_duration : JSNumber
  passenger_count : JSNumber
deriving DecidableEq, Repr

/-- isValidTrip of importData.js: coordinate, duration, passenger and
distance checks, each an early false return. -/
def isValidTrip (σ : JsMath) (r : TripRecord) : Bool :=
  let pickupLat := r.pickup_latitude
  let pickupLon := r.pickup_longitude
  let dropoffLat := r.dropoff_latitude
  let dropoffLon := r.dropoff_longitude
  let duration := r.trip_duration
  let passengers := r.passenger_count
  if !isValidCoordinate pickupLat pickupLon || !isValidCoordinate dropoffLat dropoffLon then
    false
  else if ltJ duration (.finite 30) || gtJ duration (.finite 10800) then
    false
  else if ltJ passengers (.finite 1) || gtJ passengers (.finite 6) then
    false
  else
    let distance := calculateDistance σ pickupLat pickupLon dropoffLat dropoffLon
    if ltJ distance (.finite 0.1) || gtJ distance (.finite 100) then false
    else true

/-- The trip-type assignment of enrichTripData: Cross Borough exactly when
the two labels differ and neither is "Unknown", otherwise the initial
"Within Borough" stands. -/
def tripTypeOf (pickupBorough dropoffBorough : String) : String :=
  if pickupBorough != dropoffBorough && pickupBorough != "Unknown" && dropoffBorough != "Unknown"
  then "Cross Borough" else "Within Borough"

/-- The borough/trip-type fragment of enrichTripData: both endpoints are
classified with getBorough and the trip type derived from the two labels.
(The other derived fields of enrichTripData play no part in the claims.) -/
def enrichTripType (pLat pLon dLat dLon : JSNumber) : String :=
  tripTypeOf (getBorough pLat pLon) (getBorough dLat dLon)

end ImportData

namespace TripClusterer

/-- A clustering feature point: the three fields the clusterer reads.  The
SQL rows carry further fields; they are never read or written by the
clustering code, so the embedding omits them. -/
structure Point where
  lat : JSNumber
  lon : JSNumber
  duration : JSNumber
deriving DecidableEq, Repr

/-- Placeholder for List.getD at indices that are in range by construction
(JS array indexing needs no default). -/
def dummyPoint : Point := ⟨.finite 0, .finite 0, .finite 0⟩

/-- The idiom parseFloat(x) || 0 applied to an already-parsed field value:
a NaN parse result (missing or unparseable field) collapses to 0, every
other value, zero included, is kept. -/
def orZero : JSNumber → JSNumber
  | .nan => .finite 0
  | v => v

/-- calculateDistance of the TripClusterer class: Euclidean distance over
latitude, longitude and duration/1000, with Infinity as the sentinel for a
null/absent point. -/
def calculateDistance (σ : JsMath) : Option Point → Option Point → JSNumber
  | none, _ => .posInf
  | _, none => .posInf
  | some point1, some point2 =>
      let lat1 := orZero point1.lat
      let lat2 := orZero point2.lat
      let lon1 := orZero point1.lon
      let lon2 := orZero point2.lon
      let dur1 := orZero point1.duration
      let dur2 := orZero point2.duration
      let latDiff := subJ lat1 lat2
      let lonDiff := subJ lon1 lon2
      let durationDiff := divJ (subJ dur1 dur2) (.finite 1000)
      sqrtJ σ (addJ (addJ (mulJ latDiff latDiff) (mulJ lonDiff lonDiff))
        (mulJ durationDiff durationDiff))

/-- The do-while rejection loop of initializeCentroids, with fuel: roll an
index (one Math.random call per roll), retry while it is already used. -/
def pickFreshAux (g : ℕ → ℕ) (len : ℕ) (used : List ℕ) : ℕ → ℕ → Option (ℕ × ℕ)
  | 0, _ => none
  | fuel + 1, ctr =>
      let randomIndex := g ctr % len
      if randomIndex ∈ used then pickFreshAux g len used fuel (ctr + 1)
      else some (randomIndex, ctr + 1)

/-- The for loop of initializeCentroids: k picks, each appending a copy of
the point at a fresh index and recording the index as used. -/
def initCentroidsAux (g : ℕ → ℕ) (data : List Point) (fuel : ℕ) :
    ℕ → List ℕ → ℕ → Option (List Point × List ℕ × ℕ)
  | 0, used, ctr => some ([], used, ctr)
  | k + 1, used, ctr =>
      match pickFreshAux g data.length used fuel ctr with
      | none => none
      | some (idx, ctr1) =>
          match initCentroidsAux g data fuel k (idx :: used) ctr1 with
          | none => none
          | some (cs, used2, ctr2) => some (data.getD idx dummyPoint :: cs, used2, ctr2)

/-- initializeCentroids of the TripClusterer class (the used-index set is
local to the call and dropped from the result). -/
def initCentroids (g : ℕ → ℕ) (fuel : ℕ) (data : List Point) (k : ℕ) (ctr : ℕ) :
    Option (List Point × ℕ) :=
  match initCentroidsAux g data fuel k [] ctr with
  | none => none
  | some (cs, _, ctr2) => some (cs, ctr2)

/-- The nearest-centroid computation of the assignment step: distances to
every centroid, Math.min over them, indexOf of the minimum. -/
def nearestIndex (σ : JsMath) (centroids : List Point) (point : Point) : Int :=
  let distances := centroids.map fun centroid => calculateDistance σ (some point) (some centroid)
  jsIndexOf distances (jsMinList distances)

/-- clusters[i].push(point). -/
def pushAt (clusters : List (List Point)) (i : ℕ) (p : Point) : List (List Point) :=
  clusters.set i (clusters.getD i [] ++ [p])

/-- One assignment pass of kMeans: fresh empty clusters, then every point is
pushed onto the cluster of its nearest centroid, guarded exactly as in the
source (an out-of-range indexOf result drops the point). -/
def assignStep (σ : JsMath) (centroids : List Point) (data : List Point) (k : ℕ) :
    List (List Point) :=
  data.foldl
    (fun clusters point =>
      let ni := nearestIndex σ centroids point
      if 0 ≤ ni ∧ ni < (clusters.length : Int) then pushAt clusters ni.toNat point
      else clusters)
    (List.replicate k [])

/-- The centroid-update expression for a non-empty cluster: the arithmetic
mean of member latitude, longitude and duration (the source re-applies
parseFloat to each field; on a number that is the identity). -/
def meanPoint (cluster : List Point) : Point :=
  let n : JSNumber := .finite (cluster.length : ℚ)
  ⟨divJ (cluster.foldl (fun s p => addJ s p.lat) (.finite 0)) n,
   divJ (cluster.foldl (fun s p => addJ s p.lon) (.finite 0)) n,
   divJ (cluster.foldl (fun s p => addJ s p.duration) (.finite 0)) n⟩

/-- The centroid-update map of kMeans: a non-empty cluster is replaced by
its mean, an empty cluster is reseeded with a copy of a random data point
(one Math.random call). -/
def updateCentroids (g : ℕ → ℕ) (data : List Point) :
    List (List Point) → ℕ → List Point × ℕ
  | [], ctr => ([], ctr)
  | cluster :: rest, ctr =>
      if cluster.isEmpty then
        let randomIndex := g ctr % data.length
        let (cs, ctr2) := updateCentroids g data rest (ctr + 1)
        (data.getD randomIndex dummyPoint :: cs, ctr2)
      else
        let (cs, ctr2) := updateCentroids g data rest ctr
        (meanPoint cluster :: cs, ctr2)

/-- The convergence test of kMeans: every centroid moved less than 0.001 in
feature distance (the two lists always have equal length where this is
called). -/
def converged (σ : JsMath) (centroids newCentroids : List Point) : Bool :=
  (centroids.zip newCentroids).all fun pr =>
    ltJ (calculateDistance σ (some pr.1) (some pr.2)) (.finite 0.001)

/-- The iteration loop of kMeans: at most the given number of iterations,
each a fresh assignment followed by a centroid update, stopping early at
convergence.  The last accumulator argument is the clusters binding of the
source, returned as-is when the budget is exhausted. -/
def kMeansLoop (σ : JsMath) (g : ℕ → ℕ) (data : List Point) (k : ℕ) :
    ℕ → List Point → ℕ → List (List Point) → List (List Point)
  | 0, _, _, clusters => clusters
  | n + 1, centroids, ctr, _ =>
      let clusters := assignStep σ centroids data k
      let (newCentroids, ctr2) := updateCentroids g data clusters ctr
      if converged σ centroids newCentroids then clusters
      else kMeansLoop σ g data k n newCentroids ctr2 clusters

/-- kMeans of the TripClusterer class.  The caller passes maxIterations = 100
(the default of the source).  `none` models divergence of the centroid
initialisation; every other path returns as the source does, with empty
clusters filtered from the result. -/
def kMeans (σ : JsMath) (g : ℕ → ℕ) (fuel : ℕ) (data : List Point) (k : ℤ)
    (maxIterations : ℕ) : Option (List (List Point)) :=
  if data.length = 0 then some []
  else if k ≤ 0 ∨ (data.length : ℤ) < k then some [data]
  else
    match initCentroids g fuel data k.toNat 0 with
    | none => none
    | some (centroids, ctr) =>
        some ((kMeansLoop σ g data k.toNat maxIterations centroids ctr []).filter
          fun c => !c.isEmpty)

/-- A point all of whose fields are finite numbers. -/
def finitePoint (p : Point) : Bool := p.lat.isFinite && p.lon.isFinite && p.duration.isFinite

/-- The multiset union of the memberships of a cluster list. -/
def clUnion (clusters : List (List Point)) : Multiset Point :=
  (clusters.map fun c => (c : Multiset Point)).sum

/-- A point each of whose fields is finite or NaN (no infinities). -/
def tamePoint (p : Point) : Bool :=
  (p.lat.isFinite || p.lat == .nan) && (p.lon.isFinite || p.lon == .nan) &&
  (p.duration.isFinite || p.duration == .nan)

/-- The point with every NaN field collapsed to 0, as the read-side
parseFloat(x) || 0 coercion does. -/
def zeroed (p : Point) : Point := ⟨orZero p.lat, orZero p.lon, orZero p.duration⟩

end TripClusterer

def mathZero : JsMath := ⟨fun _ => 0, fun _ => 0, fun _ _ => 0, fun _ => 0⟩

def mathTenth : JsMath := ⟨fun _ => 0, fun _ => 0, fun _ _ => 1/127420, fun _ => 0⟩

def mathOver : JsMath := ⟨fun _ => 0, fun _ => 0, fun _ _ => 1000001/127420000, fun _ => 0⟩

def pA : TripClusterer.Point := ⟨.finite 1, .finite 2, .finite 3⟩

def pB : TripClusterer.Point := ⟨.finite 2, .finite 3, .finite 4⟩

set_option allowUnsafeReducibility true
section
attribute [local semireducible] Rat.add Rat.sub Rat.mul Rat.inv Rat.ofScientific

lemma getBoroughAux_eq_find (l : List (String × ImportData.Bounds)) (lat lon : JSNumber) :
    ImportData.getBoroughAux l lat lon =
      ((l.find? fun e => ImportData.inBounds e.2 lat lon).map Prod.fst).getD "Unknown" := by
  induction l with
  | nil => rfl
  | cons e rest ih =>
      by_cases h : ImportData.inBounds e.2 lat lon
      · simp [ImportData.getBoroughAux, h, List.find?]
      · simp only [Bool.not_eq_true] at h
        simp [ImportData.getBoroughAux, h, List.find?, ih]

lemma getBoroughAux_mem (l : List (String × ImportData.Bounds)) (lat lon : JSNumber) :
    ImportData.getBoroughAux l lat lon = "Unknown" ∨
      ImportData.getBoroughAux l lat lon ∈ l.map Prod.fst := by
  induction l with
  | nil => exact Or.inl rfl
  | cons e rest ih =>
      by_cases h : ImportData.inBounds e.2 lat lon
      · right; simp [ImportData.getBoroughAux, h]
      · simp only [Bool.not_eq_true] at h
        rcases ih with h1 | h1
        · left; simpa [ImportData.getBoroughAux, h] using h1
        · right; simp [ImportData.getBoroughAux, h, h1]

/-- C5: getBorough walks the configured borough rectangles in their fixed
configuration order and returns the label of the first rectangle containing
the point (all four edges inclusive), "Unknown" when none does; being a
function, the result is deterministic, and it is always a configured borough
name or "Unknown"; the scenario coordinate (40.75, -73.98) classifies as
"Manhattan". -/
theorem getBorough_spec :
    (∀ lat lon : JSNumber,
        ImportData.getBorough lat lon =
          ((ImportData.BOROUGHS.find? fun e => ImportData.inBounds e.2 lat lon).map
            Prod.fst).getD "Unknown") ∧
    (∀ lat lon : JSNumber,
        ImportData.getBorough lat lon = "Unknown" ∨
          ImportData.getBorough lat lon ∈ ImportData.BOROUGHS.map Prod.fst) ∧
    ImportData.getBorough (.finite 40.75) (.finite (-73.98)) = "Manhattan" := by
  refine ⟨fun lat lon => getBoroughAux_eq_find _ lat lon,
    fun lat lon => getBoroughAux_mem _ lat lon, by decide⟩

/-- C7: the trip classification of enrichTripData is "Cross Borough" exactly
when the pickup and dropoff borough labels differ and neither is "Unknown";
in every other case, Unknown pairs included, it is "Within Borough". -/
theorem tripType_spec :
    (∀ pLat pLon dLat dLon : JSNumber,
        ImportData.enrichTripType pLat pLon dLat dLon = "Cross Borough" ↔
          (ImportData.getBorough pLat pLon ≠ ImportData.getBorough dLat dLon ∧
           ImportData.getBorough pLat pLon ≠ "Unknown" ∧
           ImportData.getBorough dLat dLon ≠ "Unknown")) ∧
    (∀ pLat pLon dLat dLon : JSNumber,
        ImportData.enrichTripType pLat pLon dLat dLon = "Cross Borough" ∨
          ImportData.enrichTripType pLat pLon dLat dLon = "Within Borough") := by
  constructor
  · intro pLat pLon dLat dLon
    unfold ImportData.enrichTripType ImportData.tripTypeOf
    by_cases h : (ImportData.getBorough pLat pLon != ImportData.getBorough dLat dLon &&
        ImportData.getBorough pLat pLon != "Unknown" &&
        ImportData.getBorough dLat dLon != "Unknown") = true
    · rw [if_pos h]
      simp only [Bool.and_eq_true, bne_iff_ne, ne_eq] at h
      exact iff_of_true rfl (by tauto)
    · rw [if_neg h]
      refine iff_of_false (by decide) fun hc => h ?_
      simp only [Bool.and_eq_true, bne_iff_ne, ne_eq]
      tauto
  · intro pLat pLon dLat dLon
    unfold ImportData.enrichTripType ImportData.tripTypeOf
    by_cases h : (ImportData.getBorough pLat pLon != ImportData.getBorough dLat dLon &&
        ImportData.getBorough pLat pLon != "Unknown" &&
        ImportData.getBorough dLat dLon != "Unknown") = true
    · left; rw [if_pos h]
    · right; rw [if_neg h]

/-- C8: isValidCoordinate is false at the exact origin for every bounding
rectangle; for finite coordinates it is true exactly when neither value is 0
and both lie inside the rectangle, all bounds inclusive; the function is a
total Bool-valued function (it cannot raise); in particular the configured
NYC instance rejects (0,0). -/
theorem isValidCoordinate_spec :
    (∀ b : ImportData.Bounds, ImportData.isValidCoordinateIn b (.finite 0) (.finite 0) = false) ∧
    (∀ (b : ImportData.Bounds) (lat lon : ℚ),
        ImportData.isValidCoordinateIn b (.finite lat) (.finite lon) = true ↔
          (lat ≠ 0 ∧ lon ≠ 0 ∧ b.minLat ≤ lat ∧ lat ≤ b.maxLat ∧
            b.minLon ≤ lon ∧ lon ≤ b.maxLon)) ∧
    ImportData.isValidCoordinate (.finite 0) (.finite 0) = false := by
  refine ⟨?_, ?_, ?_⟩
  · intro b; simp [ImportData.isValidCoordinateIn, beqJ]
  · intro b lat lon
    simp [ImportData.isValidCoordinateIn, beqJ, geJ, leJ, and_assoc]
  · simp [ImportData.isValidCoordinate, ImportData.isValidCoordinateIn, beqJ]

/-- C6: the clustering entry point returns an empty result on an empty input
with no iteration attempted, and returns the whole input as one cluster when
k is nonpositive or exceeds the point count; both are plain returns
(quantified over the Math instance, random source, fuel and iteration budget,
none of which is consulted), and neither raises. -/
theorem kMeans_degenerate_spec :
    (∀ (σ : JsMath) (g : ℕ → ℕ) (fuel : ℕ) (k : ℤ) (m : ℕ),
        TripClusterer.kMeans σ g fuel [] k m = some []) ∧
    (∀ (σ : JsMath) (g : ℕ → ℕ) (fuel : ℕ) (data : List TripClusterer.Point) (k : ℤ) (m : ℕ),
        data ≠ [] → (k ≤ 0 ∨ (data.length : ℤ) < k) →
        TripClusterer.kMeans σ g fuel data k m = some [data]) ∧
    (∀ (σ : JsMath) (g : ℕ → ℕ) (fuel : ℕ) (m : ℕ),
        TripClusterer.kMeans σ g fuel [pA] 0 m = some [[pA]] ∧
        TripClusterer.kMeans σ g fuel [pA] 2 m = some [[pA]]) := by
  refine ⟨fun σ g fuel k m => rfl, ?_, fun σ g fuel m => ⟨rfl, rfl⟩⟩
  intro σ g fuel data k m hne hk
  have hlen : ¬(data.length = 0) := by simpa [List.length_eq_zero] using hne
  unfold TripClusterer.kMeans
  rw [if_neg hlen, if_pos hk]

lemma calcDist_finite (σ : JsMath) (la lo du lb ob db : ℚ) :
    TripClusterer.calculateDistance σ (some ⟨.finite la, .finite lo, .finite du⟩)
        (some ⟨.finite lb, .finite ob, .finite db⟩) =
      .finite (σ.sqrt ((la - lb) * (la - lb) + (lo - ob) * (lo - ob) +
        ((du - db) / 1000) * ((du - db) / 1000))) := by
  have h0 : (0:ℚ) ≤ (la - lb) * (la - lb) + (lo - ob) * (lo - ob) +
      ((du - db) / 1000) * ((du - db) / 1000) := by
    have a1 := mul_self_nonneg (la - lb)
    have a2 := mul_self_nonneg (lo - ob)
    have a3 := mul_self_nonneg ((du - db) / 1000)
    linarith
  have h := not_lt.mpr h0
  simp only [TripClusterer.calculateDistance, TripClusterer.orZero, subJ, mulJ, divJ, addJ, sqrtJ]
  norm_num [h]

/-- C4: the feature distance of the clusterer is, for any two non-null
points with finite fields, the square root of the 3-dimensional Euclidean
sum with the duration axis divided by 1000; a null argument on either side
yields Infinity, a sentinel that loses every strict minimum comparison
against a finite distance; and at two identical points such as
(40.70, -73.95, 300) the distance is 0 (for any Math instance whose sqrt
fixes 0). -/
theorem clusterDistance_spec :
    (∀ (σ : JsMath) (p : Option TripClusterer.Point),
        TripClusterer.calculateDistance σ none p = .posInf ∧
        TripClusterer.calculateDistance σ p none = .posInf) ∧
    (∀ (σ : JsMath) (la lo du lb ob db : ℚ),
        TripClusterer.calculateDistance σ (some ⟨.finite la, .finite lo, .finite du⟩)
            (some ⟨.finite lb, .finite ob, .finite db⟩) =
          .finite (σ.sqrt ((la - lb) * (la - lb) + (lo - ob) * (lo - ob) +
            ((du - db) / 1000) * ((du - db) / 1000)))) ∧
    (∀ x : ℚ, ltJ (.finite x) .posInf = true ∧ ltJ .posInf (.finite x) = false) ∧
    (∀ σ : JsMath, σ.sqrt 0 = 0 →
        TripClusterer.calculateDistance σ
          (some ⟨.finite 40.70, .finite (-73.95), .finite 300⟩)
          (some ⟨.finite 40.70, .finite (-73.95), .finite 300⟩) = .finite 0) := by
  refine ⟨?_, fun σ la lo du lb ob db => calcDist_finite σ la lo du lb ob db, ?_, ?_⟩
  · intro σ p; cases p <;> exact ⟨rfl, rfl⟩
  · intro x; exact ⟨rfl, rfl⟩
  · intro σ h
    rw [calcDist_finite]
    norm_num [h]


/-- C1 (amended): calculateDistance of importData.js performs no finiteness
check and cannot throw.  Its embedding is a total numeric function, and
whenever any of the four coordinates is non-finite the arithmetic silently
propagates: the call returns the number NaN rather than failing with a
typed InvalidInputError (no such error exists in the source). -/
theorem calculateDistance_nonfinite_nan :
    ∀ (σ : JsMath) (lat1 lon1 lat2 lon2 : JSNumber),
      (lat1.isFinite && lon1.isFinite && lat2.isFinite && lon2.isFinite) = false →
      ImportData.calculateDistance σ lat1 lon1 lat2 lon2 = .nan := by
  intro σ lat1 lon1 lat2 lon2 h
  cases lat1 <;> cases lon1 <;> cases lat2 <;> cases lon2 <;>
    first
      | rfl
      | simp [JSNumber.isFinite] at h

/-- C1 witness: at an infinite first coordinate the function returns NaN,
with the non-finiteness hypothesis discharged on the concrete input. -/
theorem calculateDistance_nonfinite_nan_witness :
    (JSNumber.isFinite .posInf && JSNumber.isFinite (.finite 1) &&
        JSNumber.isFinite (.finite 2) && JSNumber.isFinite (.finite 3)) = false ∧
      ImportData.calculateDistance mathZero .posInf (.finite 1) (.finite 2) (.finite 3) = .nan :=
  ⟨rfl, calculateDistance_nonfinite_nan mathZero .posInf (.finite 1) (.finite 2) (.finite 3) rfl⟩

/-- C1 counterexample: with a NaN latitude the source function returns the
numeric value NaN — silent propagation, observable as a normal numeric
return — contradicting the claimed fail-fast InvalidInputError. -/
theorem calculateDistance_nan_cex :
    ImportData.calculateDistance mathZero .nan (.finite 0) (.finite 0) (.finite 0) = .nan := rfl

lemma orZero_idem (v : JSNumber) :
    TripClusterer.orZero (TripClusterer.orZero v) = TripClusterer.orZero v := by
  cases v <;> rfl

lemma orZero_tame : ∀ {x : JSNumber}, (x.isFinite || x == .nan) = true →
    ∃ a : ℚ, TripClusterer.orZero x = .finite a
  | .finite q, _ => ⟨q, rfl⟩
  | .nan, _ => ⟨0, rfl⟩
  | .posInf, h => by simp [JSNumber.isFinite] at h
  | .negInf, h => by simp [JSNumber.isFinite] at h

lemma calcDist_some (σ : JsMath) (p q : TripClusterer.Point) :
    TripClusterer.calculateDistance σ (some p) (some q) =
      sqrtJ σ (addJ (addJ
        (mulJ (subJ (TripClusterer.orZero p.lat) (TripClusterer.orZero q.lat))
              (subJ (TripClusterer.orZero p.lat) (TripClusterer.orZero q.lat)))
        (mulJ (subJ (TripClusterer.orZero p.lon) (TripClusterer.orZero q.lon))
              (subJ (TripClusterer.orZero p.lon) (TripClusterer.orZero q.lon))))
        (mulJ (divJ (subJ (TripClusterer.orZero p.duration) (TripClusterer.orZero q.duration))
                (.finite 1000))
              (divJ (subJ (TripClusterer.orZero p.duration) (TripClusterer.orZero q.duration))
                (.finite 1000)))) := rfl

/-- C9: inside the clusterer distance every field read is coerced with
parseFloat(x) || 0, so a point whose fields are finite or NaN (NaN being
what parseFloat yields on a missing or non-numeric field) is measured as if
each such field were 0: the distance agrees with the distance of the
zero-collapsed point, is an ordinary finite number, and is never the
Infinity sentinel — which is reserved for a null/absent point argument. -/
theorem clusterDistance_coercion_spec :
    ∀ (σ : JsMath) (p q : TripClusterer.Point),
      TripClusterer.tamePoint p = true → TripClusterer.tamePoint q = true →
      TripClusterer.calculateDistance σ (some p) (some q) =
          TripClusterer.calculateDistance σ (some (TripClusterer.zeroed p))
            (some (TripClusterer.zeroed q)) ∧
        (∃ r : ℚ, TripClusterer.calculateDistance σ (some p) (some q) = .finite r) ∧
        TripClusterer.calculateDistance σ (some p) (some q) ≠ .posInf := by
  intro σ p q hp hq
  simp only [TripClusterer.tamePoint, Bool.and_eq_true] at hp hq
  obtain ⟨⟨hp1, hp2⟩, hp3⟩ := hp
  obtain ⟨⟨hq1, hq2⟩, hq3⟩ := hq
  obtain ⟨a1, e1⟩ := orZero_tame hp1
  obtain ⟨a2, e2⟩ := orZero_tame hp2
  obtain ⟨a3, e3⟩ := orZero_tame hp3
  obtain ⟨b1, f1⟩ := orZero_tame hq1
  obtain ⟨b2, f2⟩ := orZero_tame hq2
  obtain ⟨b3, f3⟩ := orZero_tame hq3
  have hzp : TripClusterer.zeroed p = ⟨.finite a1, .finite a2, .finite a3⟩ := by
    simp [TripClusterer.zeroed, e1, e2, e3]
  have hzq : TripClusterer.zeroed q = ⟨.finite b1, .finite b2, .finite b3⟩ := by
    simp [TripClusterer.zeroed, f1, f2, f3]
  have heq : TripClusterer.calculateDistance σ (some p) (some q) =
      TripClusterer.calculateDistance σ (some (TripClusterer.zeroed p))
        (some (TripClusterer.zeroed q)) := by
    rw [calcDist_some, calcDist_some]
    simp only [TripClusterer.zeroed, orZero_idem]
  refine ⟨heq, ?_, ?_⟩
  · rw [heq, hzp, hzq, calcDist_finite]
    exact ⟨_, rfl⟩
  · rw [heq, hzp, hzq, calcDist_finite]
    simp

/-- C9 witness: a point with NaN latitude and duration is measured like the
corresponding zero-collapsed point, at a finite, non-sentinel distance. -/
theorem clusterDistance_coercion_witness :
    TripClusterer.tamePoint ⟨.nan, .finite 2, .nan⟩ = true ∧
    TripClusterer.tamePoint pB = true ∧
    (TripClusterer.calculateDistance mathZero (some ⟨.nan, .finite 2, .nan⟩) (some pB) =
        TripClusterer.calculateDistance mathZero
          (some (TripClusterer.zeroed ⟨.nan, .finite 2, .nan⟩))
          (some (TripClusterer.zeroed pB)) ∧
      (∃ r : ℚ, TripClusterer.calculateDistance mathZero
          (some ⟨.nan, .finite 2, .nan⟩) (some pB) = .finite r) ∧
      TripClusterer.calculateDistance mathZero
          (some ⟨.nan, .finite 2, .nan⟩) (some pB) ≠ .posInf) :=
  ⟨rfl, rfl, clusterDistance_coercion_spec mathZero ⟨.nan, .finite 2, .nan⟩ pB rfl rfl⟩

/-- C3: for a record with finite parsed fields whose endpoint distance
computes to a finite value q, isValidTrip is true exactly when both
endpoints pass isValidCoordinate, the duration lies in [30, 10800], the
passenger count in [1, 6] and q in [0.1, 100], all bounds inclusive; the
checks short-circuit as a chain of early false returns and the function is
total (it cannot raise). -/
theorem isValidTrip_spec :
    ∀ (σ : JsMath) (pla plo dla dlo du pa q : ℚ),
      ImportData.calculateDistance σ (.finite pla) (.finite plo) (.finite dla) (.finite dlo) =
          .finite q →
      (ImportData.isValidTrip σ
          ⟨.finite pla, .finite plo, .finite dla, .finite dlo, .finite du, .finite pa⟩ = true ↔
        (ImportData.isValidCoordinate (.finite pla) (.finite plo) = true ∧
         ImportData.isValidCoordinate (.finite dla) (.finite dlo) = true ∧
         30 ≤ du ∧ du ≤ 10800 ∧ 1 ≤ pa ∧ pa ≤ 6 ∧ 0.1 ≤ q ∧ q ≤ 100)) := by
  intro σ pla plo dla dlo du pa q hdist
  simp only [ImportData.isValidTrip, hdist, ltJ, gtJ]
  split_ifs with h1 h2 h3 h4
  · refine iff_of_false (by simp) fun hc => ?_
    simp only [Bool.or_eq_true, Bool.not_eq_true'] at h1
    rcases h1 with h | h <;> simp_all
  · refine iff_of_false (by simp) fun hc => ?_
    simp only [Bool.or_eq_true, decide_eq_true_eq] at h2
    rcases h2 with h | h <;> linarith [hc.2.2.1, hc.2.2.2.1]
  · refine iff_of_false (by simp) fun hc => ?_
    simp only [Bool.or_eq_true, decide_eq_true_eq] at h3
    rcases h3 with h | h <;> linarith [hc.2.2.2.2.1, hc.2.2.2.2.2.1]
  · refine iff_of_false (by simp) fun hc => ?_
    simp only [Bool.or_eq_true, decide_eq_true_eq] at h4
    rcases h4 with h | h <;> linarith [hc.2.2.2.2.2.2.1, hc.2.2.2.2.2.2.2]
  · simp only [Bool.or_eq_true, Bool.not_eq_true', decide_eq_true_eq] at h1 h2 h3 h4
    push_neg at h1 h2 h3 h4
    refine iff_of_true rfl ?_
    refine ⟨?_, ?_, by linarith [h2.1], by linarith [h2.2], by linarith [h3.1],
      by linarith [h3.2], by linarith [h4.1], by linarith [h4.2]⟩
    · simpa using h1.1
    · simpa using h1.2


open TripClusterer

lemma isFinite_exists {x : JSNumber} (h : x.isFinite = true) : ∃ a : ℚ, x = .finite a := by
  cases x with
  | finite a => exact ⟨a, rfl⟩
  | _ => simp [JSNumber.isFinite] at h

lemma finitePoint_fields {p : Point} (h : finitePoint p = true) :
    ∃ a b c : ℚ, p = ⟨.finite a, .finite b, .finite c⟩ := by
  obtain ⟨lat, lon, dur⟩ := p
  simp only [finitePoint, Bool.and_eq_true] at h
  obtain ⟨a, ha⟩ := isFinite_exists h.1.1
  obtain ⟨b, hb⟩ := isFinite_exists h.1.2
  obtain ⟨c, hc⟩ := isFinite_exists h.2
  exact ⟨a, b, c, by simp_all⟩

lemma calcDist_finpts (σ : JsMath) {p q : Point} (hp : finitePoint p = true)
    (hq : finitePoint q = true) :
    ∃ r : ℚ, TripClusterer.calculateDistance σ (some p) (some q) = .finite r := by
  obtain ⟨a1, a2, a3, rfl⟩ := finitePoint_fields hp
  obtain ⟨b1, b2, b3, rfl⟩ := finitePoint_fields hq
  exact ⟨_, calcDist_finite σ a1 a2 a3 b1 b2 b3⟩

lemma jsMin_finite (a b : ℚ) :
    jsMin (.finite a) (.finite b) = if b < a then JSNumber.finite b else JSNumber.finite a := by
  simp [jsMin, ltJ]

lemma foldl_jsMin_finite_mem :
    ∀ (ds : List JSNumber) (a : ℚ), (∀ d ∈ ds, d.isFinite = true) →
      ds.foldl jsMin (.finite a) = .finite a ∨ ds.foldl jsMin (.finite a) ∈ ds := by
  intro ds
  induction ds with
  | nil => exact fun a _ => Or.inl rfl
  | cons d rest ih =>
      intro a hf
      obtain ⟨b, rfl⟩ := isFinite_exists (hf d (List.mem_cons_self d rest))
      have hrest : ∀ x ∈ rest, x.isFinite = true :=
        fun x hx => hf x (List.mem_cons_of_mem _ hx)
      simp only [List.foldl_cons, jsMin_finite]
      by_cases hba : b < a
      · rw [if_pos hba]
        rcases ih b hrest with h | h
        · exact Or.inr (by simp [h])
        · exact Or.inr (List.mem_cons_of_mem _ h)
      · rw [if_neg hba]
        rcases ih a hrest with h | h
        · exact Or.inl h
        · exact Or.inr (List.mem_cons_of_mem _ h)

lemma jsMinList_mem (ds : List JSNumber) (hne : ds ≠ [])
    (hf : ∀ d ∈ ds, d.isFinite = true) : jsMinList ds ∈ ds := by
  cases ds with
  | nil => exact absurd rfl hne
  | cons d rest =>
      obtain ⟨b, rfl⟩ := isFinite_exists (hf d (List.mem_cons_self d rest))
      have hrest : ∀ x ∈ rest, x.isFinite = true :=
        fun x hx => hf x (List.mem_cons_of_mem _ hx)
      have : jsMinList (JSNumber.finite b :: rest) = rest.foldl jsMin (.finite b) := rfl
      rw [this]
      rcases foldl_jsMin_finite_mem rest b hrest with h | h
      · simp [h]
      · exact List.mem_cons_of_mem _ h

lemma beqJ_refl_finite (a : ℚ) : beqJ (.finite a) (.finite a) = true := by simp [beqJ]

lemma jsIndexOf_mem_bounds :
    ∀ (ds : List JSNumber) (x : JSNumber), x ∈ ds → beqJ x x = true →
      0 ≤ jsIndexOf ds x ∧ jsIndexOf ds x < (ds.length : Int) := by
  intro ds
  induction ds with
  | nil => intro x hx; exact absurd hx (List.not_mem_nil x)
  | cons a rest ih =>
      intro x hx hself
      by_cases ha : beqJ a x = true
      · simp only [jsIndexOf, ha, if_true]
        constructor
        · exact le_refl 0
        · simp only [List.length_cons]
          push_cast
          omega
      · have hxr : x ∈ rest := by
          rcases List.mem_cons.mp hx with rfl | h
          · exact absurd hself ha
          · exact h
        obtain ⟨h0, hlt⟩ := ih x hxr hself
        have hnr : ¬(jsIndexOf rest x < 0) := not_lt.mpr h0
        simp only [jsIndexOf, ha, if_false, hnr, if_neg hnr]
        constructor
        · omega
        · simp only [List.length_cons]
          push_cast
          omega

lemma nearestIndex_bounds (σ : JsMath) {centroids : List Point} (p : Point)
    (hne : centroids ≠ []) (hcf : ∀ c ∈ centroids, finitePoint c = true)
    (hp : finitePoint p = true) :
    0 ≤ nearestIndex σ centroids p ∧ nearestIndex σ centroids p < (centroids.length : Int) := by
  unfold nearestIndex
  set ds := centroids.map fun c => TripClusterer.calculateDistance σ (some p) (some c) with hds
  have hdf : ∀ d ∈ ds, d.isFinite = true := by
    intro d hd
    rw [hds] at hd
    obtain ⟨c, hc, rfl⟩ := List.mem_map.mp hd
    obtain ⟨r, hr⟩ := calcDist_finpts σ hp (hcf c hc)
    simp [hr, JSNumber.isFinite]
  have hdne : ds ≠ [] := by
    rw [hds]
    simpa using hne
  have hmem : jsMinList ds ∈ ds := jsMinList_mem ds hdne hdf
  obtain ⟨m, hm⟩ := isFinite_exists (hdf _ hmem)
  have hself : beqJ (jsMinList ds) (jsMinList ds) = true := by
    rw [hm]; exact beqJ_refl_finite m
  have := jsIndexOf_mem_bounds ds (jsMinList ds) hmem hself
  rw [hds] at this ⊢
  simpa using this

lemma pushAt_length (cs : List (List Point)) (i : ℕ) (p : Point) :
    (pushAt cs i p).length = cs.length := by simp [pushAt]

lemma clUnion_cons (c : List Point) (cs : List (List Point)) :
    clUnion (c :: cs) = ↑c + clUnion cs := by simp [clUnion]

lemma clUnion_pushAt :
    ∀ (cs : List (List Point)) (i : ℕ) (p : Point), i < cs.length →
      clUnion (pushAt cs i p) = p ::ₘ clUnion cs := by
  intro cs
  induction cs with
  | nil => intro i p h; simp at h
  | cons c rest ih =>
      intro i p h
      cases i with
      | zero =>
          have hps : pushAt (c :: rest) 0 p = (c ++ [p]) :: rest := by
            simp [pushAt]
          have hcoe : ((c ++ [p] : List Point) : Multiset Point) = ↑c + ↑[p] :=
            (Multiset.coe_add c [p]).symm
          rw [hps, clUnion_cons, clUnion_cons, hcoe, Multiset.coe_singleton,
            add_assoc, Multiset.singleton_add, Multiset.add_cons]
      | succ i =>
          have hps : pushAt (c :: rest) (i + 1) p = c :: pushAt rest i p := by
            simp [pushAt]
          rw [hps, clUnion_cons, clUnion_cons, ih i p (by simpa using h)]
          exact (Multiset.add_cons p (↑c) (clUnion rest))

lemma clUnion_replicate (k : ℕ) : clUnion (List.replicate k []) = 0 := by
  induction k with
  | zero => rfl
  | succ k ih => simp [List.replicate, clUnion_cons, ih]

lemma mem_of_mem_clUnion {cs : List (List Point)} {c : List Point} {p : Point}
    (hc : c ∈ cs) (hp : p ∈ c) : p ∈ clUnion cs := by
  induction cs with
  | nil => exact absurd hc (List.not_mem_nil c)
  | cons d rest ih =>
      rw [clUnion_cons]
      rcases List.mem_cons.mp hc with rfl | h
      · exact Multiset.mem_add.mpr (Or.inl (Multiset.mem_coe.mpr hp))
      · exact Multiset.mem_add.mpr (Or.inr (ih h))

lemma assignFold_spec (σ : JsMath) (centroids : List Point)
    (hne : centroids ≠ []) (hcf : ∀ c ∈ centroids, finitePoint c = true) :
    ∀ (pts : List Point) (cs : List (List Point)),
      (∀ p ∈ pts, finitePoint p = true) → cs.length = centroids.length →
      (pts.foldl (fun clusters point =>
          let ni := nearestIndex σ centroids point
          if 0 ≤ ni ∧ ni < (clusters.length : Int) then pushAt clusters ni.toNat point
          else clusters) cs).length = centroids.length ∧
      clUnion (pts.foldl (fun clusters point =>
          let ni := nearestIndex σ centroids point
          if 0 ≤ ni ∧ ni < (clusters.length : Int) then pushAt clusters ni.toNat point
          else clusters) cs) = clUnion cs + ↑pts := by
  intro pts
  induction pts with
  | nil => intro cs _ hlen; simpa using hlen
  | cons p pts ih =>
      intro cs hf hlen
      have hp : finitePoint p = true := hf p (List.mem_cons_self p pts)
      have hrest : ∀ x ∈ pts, finitePoint x = true :=
        fun x hx => hf x (List.mem_cons_of_mem _ hx)
      obtain ⟨h0, hlt⟩ := nearestIndex_bounds σ p hne hcf hp
      have hguard : 0 ≤ nearestIndex σ centroids p ∧
          nearestIndex σ centroids p < (cs.length : Int) := by
        rw [hlen]; exact ⟨h0, hlt⟩
      have htn : (nearestIndex σ centroids p).toNat < cs.length := by omega
      simp only [List.foldl_cons, if_pos hguard]
      obtain ⟨ihlen, ihun⟩ := ih (pushAt cs (nearestIndex σ centroids p).toNat p)
        hrest (by rw [pushAt_length]; exact hlen)
      refine ⟨ihlen, ?_⟩
      rw [ihun, clUnion_pushAt cs _ p htn]
      rw [Multiset.cons_add]
      have : ((p :: pts : List Point) : Multiset Point) = p ::ₘ ↑pts := rfl
      rw [this, Multiset.add_cons]

lemma assignStep_spec (σ : JsMath) (centroids data : List Point) (k : ℕ)
    (hne : centroids ≠ []) (hck : centroids.length = k)
    (hcf : ∀ c ∈ centroids, finitePoint c = true)
    (hdf : ∀ p ∈ data, finitePoint p = true) :
    (assignStep σ centroids data k).length = k ∧
      clUnion (assignStep σ centroids data k) = ↑data := by
  unfold assignStep
  obtain ⟨h1, h2⟩ := assignFold_spec σ centroids hne hcf data (List.replicate k [])
    hdf (by simp [hck])
  refine ⟨by rw [h1, hck], ?_⟩
  rw [h2, clUnion_replicate, zero_add]

lemma foldl_addJ_finite (f : Point → JSNumber) :
    ∀ (l : List Point) (a : ℚ), (∀ p ∈ l, (f p).isFinite = true) →
      ∃ s : ℚ, l.foldl (fun s p => addJ s (f p)) (.finite a) = .finite s := by
  intro l
  induction l with
  | nil => exact fun a _ => ⟨a, rfl⟩
  | cons p rest ih =>
      intro a hf
      obtain ⟨b, hb⟩ := isFinite_exists (hf p (List.mem_cons_self p rest))
      have hrest : ∀ x ∈ rest, (f x).isFinite = true :=
        fun x hx => hf x (List.mem_cons_of_mem _ hx)
      obtain ⟨s, hs⟩ := ih (a + b) hrest
      refine ⟨s, ?_⟩
      simp only [List.foldl_cons, hb, addJ]
      exact hs

lemma meanPoint_finite (c : List Point) (hne : c ≠ [])
    (hf : ∀ p ∈ c, finitePoint p = true) : finitePoint (meanPoint c) = true := by
  have hlat : ∀ p ∈ c, (p.lat).isFinite = true := by
    intro p hp
    obtain ⟨a, b, d, rfl⟩ := finitePoint_fields (hf p hp)
    rfl
  have hlon : ∀ p ∈ c, (p.lon).isFinite = true := by
    intro p hp
    obtain ⟨a, b, d, rfl⟩ := finitePoint_fields (hf p hp)
    rfl
  have hdur : ∀ p ∈ c, (p.duration).isFinite = true := by
    intro p hp
    obtain ⟨a, b, d, rfl⟩ := finitePoint_fields (hf p hp)
    rfl
  obtain ⟨s1, h1⟩ := foldl_addJ_finite (fun p => p.lat) c 0 hlat
  obtain ⟨s2, h2⟩ := foldl_addJ_finite (fun p => p.lon) c 0 hlon
  obtain ⟨s3, h3⟩ := foldl_addJ_finite (fun p => p.duration) c 0 hdur
  have hlen : ((c.length : ℚ) = 0) = False := by
    simp [List.length_eq_zero, hne]
  unfold meanPoint
  simp only [h1, h2, h3, divJ, hlen, if_false, finitePoint, JSNumber.isFinite,
    Bool.and_self]

lemma updateCentroids_spec (g : ℕ → ℕ) (data : List Point) (hdne : data ≠ [])
    (hdf : ∀ p ∈ data, finitePoint p = true) :
    ∀ (clusters : List (List Point)) (ctr : ℕ),
      (∀ c ∈ clusters, ∀ p ∈ c, finitePoint p = true) →
      (updateCentroids g data clusters ctr).1.length = clusters.length ∧
        ∀ c ∈ (updateCentroids g data clusters ctr).1, finitePoint c = true := by
  intro clusters
  induction clusters with
  | nil =>
      intro ctr _
      exact ⟨rfl, by intro c hc; exact absurd hc (List.not_mem_nil c)⟩
  | cons cluster rest ih =>
      intro ctr hcf
      have hrest : ∀ c ∈ rest, ∀ p ∈ c, finitePoint p = true :=
        fun c hc => hcf c (List.mem_cons_of_mem _ hc)
      have hlen0 : 0 < data.length := List.length_pos.mpr hdne
      by_cases he : cluster.isEmpty
      · obtain ⟨ih1, ih2⟩ := ih (ctr + 1) hrest
        rcases hu : updateCentroids g data rest (ctr + 1) with ⟨cs, ctr2⟩
        rw [hu] at ih1 ih2
        have hmem : data.getD (g ctr % data.length) dummyPoint ∈ data := by
          rw [List.getD_eq_getElem _ _ (Nat.mod_lt _ hlen0)]
          exact List.getElem_mem _
        simp only [updateCentroids, he, if_true, hu]
        refine ⟨by simpa using ih1, ?_⟩
        intro c hc
        rcases List.mem_cons.mp hc with rfl | h
        · exact hdf _ hmem
        · exact ih2 c h
      · obtain ⟨ih1, ih2⟩ := ih ctr hrest
        rcases hu : updateCentroids g data rest ctr with ⟨cs, ctr2⟩
        rw [hu] at ih1 ih2
        have hcne : cluster ≠ [] := by
          simpa [List.isEmpty_iff] using he
        simp only [updateCentroids, he, if_false, hu, Bool.false_eq_true]
        refine ⟨by simpa using ih1, ?_⟩
        intro c hc
        rcases List.mem_cons.mp hc with rfl | h
        · exact meanPoint_finite cluster hcne (hcf cluster (List.mem_cons_self _ _))
        · exact ih2 c h

lemma kMeansLoop_partition (σ : JsMath) (g : ℕ → ℕ) (data : List Point) (k : ℕ)
    (hk : 0 < k) (hdne : data ≠ []) (hdf : ∀ p ∈ data, finitePoint p = true) :
    ∀ (n : ℕ) (centroids : List Point) (ctr : ℕ) (acc : List (List Point)),
      centroids.length = k → (∀ c ∈ centroids, finitePoint c = true) →
      (kMeansLoop σ g data k (n + 1) centroids ctr acc).length = k ∧
        clUnion (kMeansLoop σ g data k (n + 1) centroids ctr acc) = ↑data := by
  intro n
  induction n with
  | zero =>
      intro centroids ctr acc hck hcf
      have hne : centroids ≠ [] := by
        intro h; rw [h] at hck; simp at hck; omega
      obtain ⟨ha1, ha2⟩ := assignStep_spec σ centroids data k hne hck hcf hdf
      simp only [kMeansLoop]
      rcases hu : updateCentroids g data (assignStep σ centroids data k) ctr with ⟨nc, ctr2⟩
      by_cases hcv : converged σ centroids nc
      · simp only [hcv, if_true]
        exact ⟨ha1, ha2⟩
      · simp only [hcv, if_false, Bool.false_eq_true, kMeansLoop]
        exact ⟨ha1, ha2⟩
  | succ n ih =>
      intro centroids ctr acc hck hcf
      have hne : centroids ≠ [] := by
        intro h; rw [h] at hck; simp at hck; omega
      obtain ⟨ha1, ha2⟩ := assignStep_spec σ centroids data k hne hck hcf hdf
      have hmem : ∀ c ∈ assignStep σ centroids data k, ∀ p ∈ c, finitePoint p = true := by
        intro c hc p hp
        have : p ∈ clUnion (assignStep σ centroids data k) := mem_of_mem_clUnion hc hp
        rw [ha2] at this
        exact hdf p (Multiset.mem_coe.mp this)
      obtain ⟨hu1, hu2⟩ := updateCentroids_spec g data hdne hdf
        (assignStep σ centroids data k) ctr hmem
      rcases hu : updateCentroids g data (assignStep σ centroids data k) ctr with ⟨nc, ctr2⟩
      rw [hu] at hu1 hu2
      simp only [kMeansLoop, hu]
      by_cases hcv : converged σ centroids nc
      · simp only [hcv, if_true]
        exact ⟨ha1, ha2⟩
      · simp only [hcv, if_false, Bool.false_eq_true]
        exact ih nc ctr2 (assignStep σ centroids data k) (by rw [hu1, ha1]) hu2

lemma pickFreshAux_sound (g : ℕ → ℕ) (len : ℕ) (used : List ℕ) :
    ∀ (fuel ctr idx ctr2 : ℕ), pickFreshAux g len used fuel ctr = some (idx, ctr2) →
      idx ∉ used ∧ (0 < len → idx < len) := by
  intro fuel
  induction fuel with
  | zero => intro ctr idx ctr2 h; simp [pickFreshAux] at h
  | succ fuel ih =>
      intro ctr idx ctr2 h
      by_cases hm : g ctr % len ∈ used
      · rw [pickFreshAux, if_pos hm] at h
        exact ih (ctr + 1) idx ctr2 h
      · rw [pickFreshAux, if_neg hm] at h
        simp only [Option.some.injEq, Prod.mk.injEq] at h
        obtain ⟨rfl, -⟩ := h
        exact ⟨hm, fun hl => Nat.mod_lt _ hl⟩

lemma initCentroidsAux_sound (g : ℕ → ℕ) (data : List Point) (fuel : ℕ)
    (hlen : 0 < data.length) :
    ∀ (k : ℕ) (used : List ℕ) (ctr : ℕ) (cs : List Point) (used2 : List ℕ) (ctr2 : ℕ),
      initCentroidsAux g data fuel k used ctr = some (cs, used2, ctr2) →
      ∃ idxs : List ℕ, idxs.length = k ∧ idxs.Nodup ∧
        (∀ i ∈ idxs, i < data.length ∧ i ∉ used) ∧
        cs = idxs.map fun i => data.getD i dummyPoint := by
  intro k
  induction k with
  | zero =>
      intro used ctr cs used2 ctr2 h
      simp only [initCentroidsAux, Option.some.injEq, Prod.mk.injEq] at h
      exact ⟨[], rfl, List.nodup_nil, by simp, by simp [← h.1]⟩
  | succ k ih =>
      intro used ctr cs used2 ctr2 h
      rw [initCentroidsAux] at h
      cases h1 : pickFreshAux g data.length used fuel ctr with
      | none => rw [h1] at h; simp at h
      | some x =>
          obtain ⟨idx, ctr1⟩ := x
          rw [h1] at h
          dsimp only at h
          cases h2 : initCentroidsAux g data fuel k (idx :: used) ctr1 with
          | none => rw [h2] at h; simp at h
          | some y =>
              obtain ⟨cs', used2', ctr2'⟩ := y
              rw [h2] at h
              dsimp only at h
              simp only [Option.some.injEq, Prod.mk.injEq] at h
              obtain ⟨hidx, hbnd⟩ := pickFreshAux_sound g data.length used fuel ctr idx ctr1 h1
              obtain ⟨idxs, hl, hnd, hmem, hcs⟩ :=
                ih (idx :: used) ctr1 cs' used2' ctr2' h2
              refine ⟨idx :: idxs, by simp [hl], ?_, ?_, ?_⟩
              · refine List.nodup_cons.mpr ⟨?_, hnd⟩
                intro hin
                exact (hmem idx hin).2 (List.mem_cons_self _ _)
              · intro i hi
                rcases List.mem_cons.mp hi with rfl | hi2
                · exact ⟨hbnd hlen, hidx⟩
                · obtain ⟨hi3, hi4⟩ := hmem i hi2
                  exact ⟨hi3, fun hcon => hi4 (List.mem_cons_of_mem _ hcon)⟩
              · rw [← h.1, hcs]
                simp

lemma initCentroids_sound (g : ℕ → ℕ) (fuel : ℕ) (data : List Point) (k ctr : ℕ)
    (hlen : 0 < data.length) {cs : List Point} {ctr2 : ℕ}
    (h : initCentroids g fuel data k ctr = some (cs, ctr2)) :
    ∃ idxs : List ℕ, idxs.length = k ∧ idxs.Nodup ∧ (∀ i ∈ idxs, i < data.length) ∧
      cs = idxs.map fun i => data.getD i dummyPoint := by
  rw [initCentroids] at h
  cases h0 : initCentroidsAux g data fuel k [] ctr with
  | none => rw [h0] at h; simp at h
  | some y =>
      obtain ⟨cs', used2', ctr2'⟩ := y
      rw [h0] at h
      dsimp only at h
      simp only [Option.some.injEq, Prod.mk.injEq] at h
      obtain ⟨idxs, hl, hnd, hmem, hcs⟩ :=
        initCentroidsAux_sound g data fuel hlen k [] ctr cs' used2' ctr2' h0
      exact ⟨idxs, hl, hnd, fun i hi => (hmem i hi).1, by rw [← h.1, hcs]⟩

lemma initCentroids_props (g : ℕ → ℕ) (fuel : ℕ) (data : List Point) (k ctr : ℕ)
    (hlen : 0 < data.length) {cs : List Point} {ctr2 : ℕ}
    (h : initCentroids g fuel data k ctr = some (cs, ctr2)) :
    cs.length = k ∧ ∀ c ∈ cs, c ∈ data := by
  obtain ⟨idxs, hl, -, hmem, hcs⟩ := initCentroids_sound g fuel data k ctr hlen h
  constructor
  · rw [hcs, List.length_map, hl]
  · intro c hc
    rw [hcs] at hc
    obtain ⟨i, hi, rfl⟩ := List.mem_map.mp hc
    rw [List.getD_eq_getElem _ _ (hmem i hi)]
    exact List.getElem_mem _

lemma clUnion_filter_nonempty (l : List (List Point)) :
    clUnion (l.filter fun c => !c.isEmpty) = clUnion l := by
  induction l with
  | nil => rfl
  | cons c rest ih =>
      by_cases hce : c.isEmpty
      · have hcnil : c = [] := by simpa [List.isEmpty_iff] using hce
        simp [List.filter_cons, hce, clUnion_cons, hcnil, ih]
      · simp [List.filter_cons, hce, clUnion_cons, ih]

/-- C2: for a non-empty list of points with finite numeric fields, any k
with 1 <= k <= pointCount, any Math instance, any random stream and any
positive iteration budget, a returned kMeans result has at most k clusters,
every returned cluster is non-empty, and the multiset union of the returned
memberships is exactly the input multiset — no point duplicated, none
dropped — whether the loop stopped by convergence or by exhausting its
budget. -/
theorem kMeans_partition :
    ∀ (σ : JsMath) (g : ℕ → ℕ) (fuel : ℕ) (data : List TripClusterer.Point) (k : ℤ)
      (maxIterations : ℕ) (result : List (List TripClusterer.Point)),
      1 ≤ k → k ≤ (data.length : ℤ) → 1 ≤ maxIterations →
      (∀ p ∈ data, TripClusterer.finitePoint p = true) →
      TripClusterer.kMeans σ g fuel data k maxIterations = some result →
      result.length ≤ k.toNat ∧ (∀ c ∈ result, c ≠ []) ∧
        TripClusterer.clUnion result = (data : Multiset TripClusterer.Point) := by
  intro σ g fuel data k maxIterations result hk1 hk2 hit hdf hrun
  have hlen0 : 0 < data.length := by omega
  have hdne : data ≠ [] := by
    intro h; rw [h] at hlen0; simp at hlen0
  have hlen : ¬(data.length = 0) := by omega
  have hguard : ¬(k ≤ 0 ∨ (data.length : ℤ) < k) := by omega
  rw [kMeans, if_neg hlen, if_neg hguard] at hrun
  cases hinit : initCentroids g fuel data k.toNat 0 with
  | none => rw [hinit] at hrun; simp at hrun
  | some y =>
      obtain ⟨centroids, ctr⟩ := y
      rw [hinit] at hrun
      simp only [Option.some.injEq] at hrun
      obtain ⟨hc1, hc2⟩ := initCentroids_props g fuel data k.toNat 0 hlen0 hinit
      have hcf : ∀ c ∈ centroids, finitePoint c = true := fun c hc => hdf c (hc2 c hc)
      have hkpos : 0 < k.toNat := by omega
      obtain ⟨m, rfl⟩ : ∃ m, maxIterations = m + 1 := ⟨maxIterations - 1, by omega⟩
      obtain ⟨hl1, hl2⟩ := kMeansLoop_partition σ g data k.toNat hkpos hdne hdf
        m centroids ctr [] hc1 hcf
      set R := kMeansLoop σ g data k.toNat (m + 1) centroids ctr [] with hR
      rw [← hrun]
      refine ⟨?_, ?_, ?_⟩
      · calc (R.filter fun c => !c.isEmpty).length ≤ R.length := List.length_filter_le _ _
          _ = k.toNat := hl1
      · intro c hc
        have := (List.mem_filter.mp hc).2
        simpa [List.isEmpty_iff] using this
      · rw [← hl2]
        exact clUnion_filter_nonempty R

/-- C2 witness: a concrete two-point run with k = 1 (constant random
stream, fuel 1, the zero Math instance) returns the single cluster holding
both points, and the partition conclusion is obtained from the theorem at
that input with every hypothesis discharged concretely. -/
theorem kMeans_partition_witness :
    TripClusterer.kMeans mathZero (fun _ => 0) 1 [pA, pB] 1 100 = some [[pA, pB]] ∧
      ([[pA, pB]] : List (List TripClusterer.Point)).length ≤ (1 : ℤ).toNat ∧
      (∀ c ∈ ([[pA, pB]] : List (List TripClusterer.Point)), c ≠ []) ∧
      TripClusterer.clUnion [[pA, pB]] = ([pA, pB] : Multiset TripClusterer.Point) :=
  ⟨by decide,
   kMeans_partition mathZero (fun _ => 0) 1 [pA, pB] 1 100 [[pA, pB]]
     (by decide) (by decide) (by decide) (by decide) (by decide)⟩

lemma pickFreshAux_mono (g : ℕ → ℕ) (len : ℕ) (used : List ℕ) :
    ∀ (fuel ctr : ℕ) (x : ℕ × ℕ), pickFreshAux g len used fuel ctr = some x →
      ∀ fuel2, fuel ≤ fuel2 → pickFreshAux g len used fuel2 ctr = some x := by
  intro fuel
  induction fuel with
  | zero => intro ctr x h; simp [pickFreshAux] at h
  | succ fuel ih =>
      intro ctr x h fuel2 hle
      obtain ⟨f2, rfl⟩ : ∃ f2, fuel2 = f2 + 1 := ⟨fuel2 - 1, by omega⟩
      by_cases hm : g ctr % len ∈ used
      · rw [pickFreshAux, if_pos hm] at h
        rw [pickFreshAux, if_pos hm]
        exact ih (ctr + 1) x h f2 (by omega)
      · rw [pickFreshAux, if_neg hm] at h
        rw [pickFreshAux, if_neg hm]
        exact h

lemma pickFreshAux_reaches (g : ℕ → ℕ) (len : ℕ) (used : List ℕ) :
    ∀ (d ctr : ℕ), g (ctr + d) % len ∉ used →
      ∃ x, pickFreshAux g len used (d + 1) ctr = some x := by
  intro d
  induction d with
  | zero =>
      intro ctr h
      rw [Nat.add_zero] at h
      exact ⟨(g ctr % len, ctr + 1), by rw [pickFreshAux, if_neg h]⟩
  | succ d ih =>
      intro ctr h
      by_cases hm : g ctr % len ∈ used
      · have : g ((ctr + 1) + d) % len ∉ used := by
          rw [show ctr + 1 + d = ctr + (d + 1) by omega]
          exact h
        obtain ⟨x, hx⟩ := ih (ctr + 1) this
        exact ⟨x, by rw [pickFreshAux, if_pos hm]; exact hx⟩
      · exact ⟨(g ctr % len, ctr + 1), by rw [pickFreshAux, if_neg hm]⟩

lemma exists_unused (len : ℕ) (used : List ℕ) (hn : used.Nodup)
    (hlt : used.length < len) :
    ∃ r, r < len ∧ r ∉ used := by
  by_contra hcon
  push_neg at hcon
  have hsub : Finset.range len ⊆ used.toFinset := by
    intro r hr
    exact List.mem_toFinset.mpr (hcon r (Finset.mem_range.mp hr))
  have := Finset.card_le_card hsub
  rw [Finset.card_range, List.toFinset_card_of_nodup hn] at this
  omega

lemma initCentroidsAux_mono (g : ℕ → ℕ) (data : List Point) :
    ∀ (k : ℕ) (used : List ℕ) (ctr : ℕ) (y : List Point × List ℕ × ℕ)
      (fuel fuel2 : ℕ), fuel ≤ fuel2 →
      initCentroidsAux g data fuel k used ctr = some y →
      initCentroidsAux g data fuel2 k used ctr = some y := by
  intro k
  induction k with
  | zero => intro used ctr y fuel fuel2 hle h; simpa [initCentroidsAux] using h
  | succ k ih =>
      intro used ctr y fuel fuel2 hle h
      rw [initCentroidsAux] at h ⊢
      cases h1 : pickFreshAux g data.length used fuel ctr with
      | none => rw [h1] at h; simp at h
      | some x =>
          obtain ⟨idx, ctr1⟩ := x
          rw [h1] at h
          dsimp only at h
          rw [pickFreshAux_mono g data.length used fuel ctr (idx, ctr1) h1 fuel2 hle]
          dsimp only
          cases h2 : initCentroidsAux g data fuel k (idx :: used) ctr1 with
          | none => rw [h2] at h; simp at h
          | some y2 =>
              rw [h2] at h
              rw [ih (idx :: used) ctr1 y2 fuel fuel2 hle h2]
              exact h

lemma initCentroidsAux_terminates (g : ℕ → ℕ) (data : List Point)
    (hlen : 0 < data.length)
    (hcov : ∀ m r, r < data.length → ∃ n, m ≤ n ∧ g n % data.length = r) :
    ∀ (k : ℕ) (used : List ℕ) (ctr : ℕ), used.Nodup →
      (∀ i ∈ used, i < data.length) → used.length + k ≤ data.length →
      ∃ fuel y, initCentroidsAux g data fuel k used ctr = some y := by
  intro k
  induction k with
  | zero =>
      intro used ctr _ _ _
      exact ⟨0, ([], used, ctr), rfl⟩
  | succ k ih =>
      intro used ctr hn hb hcard
      obtain ⟨r, hr, hru⟩ := exists_unused data.length used hn (by omega)
      obtain ⟨n, hn1, hn2⟩ := hcov ctr r hr
      have hfresh : g (ctr + (n - ctr)) % data.length ∉ used := by
        rw [show ctr + (n - ctr) = n by omega, hn2]
        exact hru
      obtain ⟨x, hx⟩ := pickFreshAux_reaches g data.length used (n - ctr) ctr hfresh
      obtain ⟨idx, ctr1⟩ := x
      obtain ⟨hidx, hbnd⟩ :=
        pickFreshAux_sound g data.length used (n - ctr + 1) ctr idx ctr1 hx
      obtain ⟨fuel2, y2, hy2⟩ := ih (idx :: used) ctr1
        (List.nodup_cons.mpr ⟨hidx, hn⟩)
        (by
          intro i hi
          rcases List.mem_cons.mp hi with rfl | h
          · exact hbnd hlen
          · exact hb i h)
        (by simp only [List.length_cons]; omega)
      refine ⟨max (n - ctr + 1) fuel2, (data.getD idx dummyPoint :: y2.1, y2.2.1, y2.2.2), ?_⟩
      rw [initCentroidsAux]
      rw [pickFreshAux_mono g data.length used (n - ctr + 1) ctr (idx, ctr1) hx
        (max (n - ctr + 1) fuel2) (le_max_left _ _)]
      dsimp only
      rw [initCentroidsAux_mono g data k (idx :: used) ctr1 y2 fuel2
        (max (n - ctr + 1) fuel2) (le_max_right _ _) hy2]

lemma pickFresh_stuck : ∀ (fuel ctr : ℕ),
    pickFreshAux (fun _ => 0) 2 [0] fuel ctr = none := by
  intro fuel
  induction fuel with
  | zero => intro ctr; rfl
  | succ fuel ih =>
      intro ctr
      rw [pickFreshAux, if_pos (by decide)]
      exact ih (ctr + 1)

lemma initCentroids_stuck : ∀ fuel : ℕ,
    TripClusterer.initCentroids (fun _ => 0) fuel [dummyPoint, dummyPoint] 2 0 = none := by
  intro fuel
  cases fuel with
  | zero => rfl
  | succ fuel =>
      rw [initCentroids, initCentroidsAux]
      have h1 : pickFreshAux (fun _ => 0) ([dummyPoint, dummyPoint] : List Point).length []
          (fuel + 1) 0 = some (0, 1) := by
        rw [pickFreshAux, if_neg (by decide)]
        rfl
      rw [h1]
      dsimp only
      rw [initCentroidsAux]
      rw [show ([dummyPoint, dummyPoint] : List Point).length = 2 from rfl,
        pickFresh_stuck (fuel + 1) 1]

/-- C10: a successful initializeCentroids run returns exactly k centroids
that are copies of the input points at k pairwise-distinct in-range
indices; under the precondition k <= pointCount termination is guaranteed
for every random stream that keeps producing every residue (some fuel
suffices), but not unconditionally: a constant random stream with two
points and k = 2 rerolls forever (every fuel yields divergence), so
termination is almost-sure rather than absolute. -/
theorem initCentroids_spec :
    (∀ (g : ℕ → ℕ) (fuel : ℕ) (data : List TripClusterer.Point) (k ctr : ℕ)
       (cs : List TripClusterer.Point) (ctr2 : ℕ),
       0 < data.length →
       TripClusterer.initCentroids g fuel data k ctr = some (cs, ctr2) →
       ∃ idxs : List ℕ, idxs.length = k ∧ idxs.Nodup ∧
         (∀ i ∈ idxs, i < data.length) ∧
         cs = idxs.map fun i => data.getD i TripClusterer.dummyPoint) ∧
    (∀ (g : ℕ → ℕ) (data : List TripClusterer.Point) (k ctr : ℕ),
       k ≤ data.length → 0 < data.length →
       (∀ m r, r < data.length → ∃ n, m ≤ n ∧ g n % data.length = r) →
       ∃ fuel y, TripClusterer.initCentroids g fuel data k ctr = some y) ∧
    (2 ≤ ([TripClusterer.dummyPoint, TripClusterer.dummyPoint] : List TripClusterer.Point).length ∧
     ∀ fuel : ℕ,
       TripClusterer.initCentroids (fun _ => 0) fuel
         [TripClusterer.dummyPoint, TripClusterer.dummyPoint] 2 0 = none) := by
  refine ⟨?_, ?_, by decide, initCentroids_stuck⟩
  · intro g fuel data k ctr cs ctr2 hlen h
    exact initCentroids_sound g fuel data k ctr hlen h
  · intro g data k ctr hk hlen hcov
    obtain ⟨fuel, y, hy⟩ := initCentroidsAux_terminates g data hlen hcov k [] ctr
      List.nodup_nil (by simp) (by simpa using hk)
    exact ⟨fuel, (y.1, y.2.2), by rw [initCentroids, hy]⟩


/-- C3 witness: a concrete Math instance whose atan2 constant makes the
haversine pipeline yield exactly 0.1 km; the boundary record (duration 30 s,
1 passenger, distance 0.1 km) validates true, duration 29 s validates
false, and the same record under a Math instance producing 100.0001 km
validates false. -/
theorem isValidTrip_spec_witness :
    ImportData.calculateDistance mathTenth (.finite 40.75) (.finite (-73.98))
        (.finite 40.76) (.finite (-73.97)) = .finite (1/10) ∧
    ImportData.isValidTrip mathTenth
        ⟨.finite 40.75, .finite (-73.98), .finite 40.76, .finite (-73.97),
          .finite 30, .finite 1⟩ = true ∧
    ImportData.isValidTrip mathTenth
        ⟨.finite 40.75, .finite (-73.98), .finite 40.76, .finite (-73.97),
          .finite 29, .finite 1⟩ = false ∧
    ImportData.isValidTrip mathOver
        ⟨.finite 40.75, .finite (-73.98), .finite 40.76, .finite (-73.97),
          .finite 30, .finite 1⟩ = false :=
  ⟨by decide,
   (isValidTrip_spec mathTenth 40.75 (-73.98) 40.76 (-73.97) 30 1 (1/10) (by decide)).mpr
     (by decide),
   by decide, by decide⟩

end
